import Mathlib

/-!
Verification of the GMD comparison tool (`test/compare.py`).

The Python source is shallowly embedded: floats become exact rationals,
Python tuples become Lean structures / inductives, Python dicts and
defaultdicts become association lists (insertion-ordered, as CPython
dicts are), and Python `assert` becomes `Except.error`.  Statefulness of
`defaultdict.__getitem__` (which inserts an empty bucket on a missing
key) is modelled by explicit state passing of the voxel map.
-/

/-- Python `round(x, n)` uses banker's rounding (round half to even). -/
def roundHalfEven (q : ℚ) : ℤ :=
  if Int.fract q < 1/2 then ⌊q⌋
  else if 1/2 < Int.fract q then ⌊q⌋ + 1
  else if ⌊q⌋ % 2 = 0 then ⌊q⌋ else ⌊q⌋ + 1

/-- `round(x, n)` from Python: round to `n` decimal places. -/
def roundQ (n : ℕ) (q : ℚ) : ℚ := (roundHalfEven (q * 10 ^ n) : ℚ) / 10 ^ n

/-- Python `int(x)` on a float/rational truncates toward zero. -/
def truncInt (q : ℚ) : ℤ := if 0 ≤ q then ⌊q⌋ else -⌊-q⌋

abbrev Vec3 := ℚ × ℚ × ℚ

/-- `(a - b).length_squared` of `mathutils.Vector`. -/
def distSq (a b : Vec3) : ℚ :=
  (a.1 - b.1) ^ 2 + (a.2.1 - b.2.1) ^ 2 + (a.2.2 - b.2.2) ^ 2

/-- `Vector.dot` of `mathutils` (componentwise product sum). -/
def dotQ (a b : List ℚ) : ℚ := ((a.zip b).map (fun p => p.1 * p.2)).foldl (· + ·) 0

/-- `Vector.resized(4)` of `mathutils`: truncate/zero-pad to 4 components. -/
def resized4 (v : List ℚ) : List ℚ := (v ++ [0, 0, 0, 0]).take 4

/-- `VertApproxData` of compare.py: optional normal/tangent tuples. -/
structure VertApproxData where
  normal : Option (List ℚ)
  tangent : Option (List ℚ)
deriving DecidableEq

/-- `VertApproxData.new`: resize each present vector to 4 components and
round every component to 2 decimals. -/
def VertApproxData.new (normal tangent : Option (List ℚ)) : VertApproxData :=
  { normal := normal.map (fun v => (resized4 v).map (roundQ 2)),
    tangent := tangent.map (fun v => (resized4 v).map (roundQ 2)) }

/-- `VertApproxData.approx_eq` (threshold `t = 0.9`; the tangent check is
commented out in the source and therefore absent here). -/
def VertApproxData.approx_eq (s o : VertApproxData) : Bool :=
  match s.normal with
  | none =>
    match o.normal with
    | some _ => false
    | none => true
  | some n =>
    match o.normal with
    | none => false
    | some m => if dotQ n m < 9/10 then false else true

/-- One component of the heterogeneous "exact data" Python tuple built by
`get_unique_verts` / `get_unique_skinned_verts`. -/
inductive KeyItem where
  | num : ℚ → KeyItem
  | tup : List ℚ → KeyItem
  | tag : String → KeyItem
  | bonePairs : List (String × ℚ) → KeyItem
deriving DecidableEq

abbrev ExactKey := List KeyItem

/-- Lookup in the association list modelling `VertSet.verts` (a Python dict). -/
def lookupKey : List (ExactKey × List VertApproxData) → ExactKey →
    Option (List VertApproxData)
  | [], _ => none
  | p :: rest, k => if p.1 = k then some p.2 else lookupKey rest k

/-- `VertSet`: mapping exact key -> set of approx data, plus a raw add counter. -/
structure VertSet where
  verts : List (ExactKey × List VertApproxData)
  len : ℕ

def VertSet.init : VertSet := ⟨[], 0⟩

/-- `self.verts[vert_exact].add(vert_approx)` on the defaultdict-of-sets:
insert into the key's set (idempotent), creating the key if missing. -/
def addToKey : List (ExactKey × List VertApproxData) → ExactKey → VertApproxData →
    List (ExactKey × List VertApproxData)
  | [], k, a => [(k, [a])]
  | p :: rest, k, a =>
    if p.1 = k then (p.1, if a ∈ p.2 then p.2 else p.2 ++ [a]) :: rest
    else p :: addToKey rest k a

/-- `VertSet.add`: set-insert the approx data under the exact key and
increment the raw counter unconditionally. -/
def VertSet.add (s : VertSet) (k : ExactKey) (a : VertApproxData) : VertSet :=
  ⟨addToKey s.verts k a, s.len + 1⟩

/-- `VertSet.exact_difference`: keys of self absent from other. -/
def VertSet.exact_difference (s o : VertSet) : List ExactKey :=
  (s.verts.map Prod.fst).filter (fun k => (lookupKey o.verts k).isNone)

/-- `VertSet.difference`: keys absent from other contribute all their approx
data; keys in both contribute the approx data with no `approx_eq` partner. -/
def VertSet.difference (s o : VertSet) : List (ExactKey × List VertApproxData) :=
  s.verts.foldl (fun acc p =>
    match lookupKey o.verts p.1 with
    | none => acc ++ [p]
    | some os =>
      let differing := p.2.filter (fun a => !(os.any (fun b => a.approx_eq b)))
      if differing = [] then acc else acc ++ [(p.1, differing)]) []

/-- A `VertSet` built by a sequence of `add` calls from the empty set. -/
def buildVertSet (adds : List (ExactKey × VertApproxData)) : VertSet :=
  adds.foldl (fun s p => s.add p.1 p.2) VertSet.init

theorem lookupKey_isSome_of_mem_keys {l : List (ExactKey × List VertApproxData)}
    {k : ExactKey} (h : k ∈ l.map Prod.fst) : (lookupKey l k).isSome := by
  induction l with
  | nil => simp at h
  | cons p rest ih =>
    simp only [List.map_cons, List.mem_cons] at h
    by_cases hk : p.1 = k
    · simp [lookupKey, hk]
    · rcases h with h | h
      · exact absurd h.symm hk
      · simpa [lookupKey, hk] using ih h

/-- For any `VertSet` value, `exact_difference` with itself is empty. -/
theorem exact_difference_self (S : VertSet) : S.exact_difference S = [] := by
  unfold VertSet.exact_difference
  refine List.filter_eq_nil_iff.mpr ?_
  intro k hk
  have := lookupKey_isSome_of_mem_keys hk
  simp [Option.isNone, Option.isSome] at *
  cases h : lookupKey S.verts k with
  | none => rw [h] at this; simp at this
  | some l => simp

/-- Claim C1 (amended): `approx_eq(x, x)` is true exactly when `x.normal` is
absent or the stored (rounded) normal has self-dot at least `0.9`; it is
false for stored normals of squared length below `0.9`, e.g. a zero normal. -/
theorem approx_eq_self_iff (x : VertApproxData) :
    x.approx_eq x = true ↔
      (x.normal = none ∨ ∃ n, x.normal = some n ∧ (9 : ℚ)/10 ≤ dotQ n n) := by
  cases h : x.normal with
  | none => simp [VertApproxData.approx_eq, h]
  | some n =>
    simp only [VertApproxData.approx_eq, h]
    by_cases hd : dotQ n n < 9/10
    · simp [hd, not_le.mpr hd]
    · simp [hd, not_lt.mp hd]

/-- Claim C1 counterexample: for the value built by `VertApproxData.new` from
the zero normal, `approx_eq(x, x)` is false, refuting "always true". -/
theorem approx_eq_self_false_cex :
    (VertApproxData.new (some [0, 0, 0]) none).approx_eq
      (VertApproxData.new (some [0, 0, 0]) none) = false := by
  norm_num [VertApproxData.new, VertApproxData.approx_eq, resized4, roundQ,
    roundHalfEven, dotQ, Int.fract]

theorem addToKey_keys (l : List (ExactKey × List VertApproxData))
    (k : ExactKey) (a : VertApproxData) :
    (addToKey l k a).map Prod.fst =
      if k ∈ l.map Prod.fst then l.map Prod.fst else l.map Prod.fst ++ [k] := by
  induction l with
  | nil => simp [addToKey]
  | cons p rest ih =>
    by_cases hk : p.1 = k
    · simp [addToKey, hk]
    · have hk2 : ¬ k = p.1 := fun h => hk h.symm
      simp only [addToKey, if_neg hk, List.map_cons, ih, List.mem_cons, hk2, false_or]
      by_cases hmem : k ∈ rest.map Prod.fst <;> simp [hmem]

theorem addToKey_keys_nodup {l : List (ExactKey × List VertApproxData)}
    {k : ExactKey} {a : VertApproxData} (h : (l.map Prod.fst).Nodup) :
    ((addToKey l k a).map Prod.fst).Nodup := by
  rw [addToKey_keys]
  by_cases hmem : k ∈ l.map Prod.fst
  · simpa [hmem] using h
  · simpa [hmem, List.nodup_append] using h

theorem lookupKey_eq_of_nodup {l : List (ExactKey × List VertApproxData)}
    (h : (l.map Prod.fst).Nodup) {k : ExactKey} {as : List VertApproxData}
    (hmem : (k, as) ∈ l) : lookupKey l k = some as := by
  induction l with
  | nil => simp at hmem
  | cons p rest ih =>
    simp only [List.map_cons, List.nodup_cons] at h
    rcases List.mem_cons.mp hmem with heq | htail
    · rw [← heq]
      simp [lookupKey]
    · have hk : ¬ p.1 = k := by
        intro hkk
        exact h.1 (hkk ▸ (List.mem_map.mpr ⟨(k, as), htail, rfl⟩))
      simp only [lookupKey, if_neg hk]
      exact ih h.2 htail

/-- Every approx datum stored in the association list satisfies `P`. -/
def AllApprox (P : VertApproxData → Prop) (l : List (ExactKey × List VertApproxData)) : Prop :=
  ∀ p ∈ l, ∀ a ∈ p.2, P a

theorem allApprox_addToKey {P : VertApproxData → Prop}
    {l : List (ExactKey × List VertApproxData)} {k : ExactKey} {a : VertApproxData}
    (hl : AllApprox P l) (ha : P a) : AllApprox P (addToKey l k a) := by
  induction l with
  | nil =>
    intro p hp b hb
    simp only [addToKey, List.mem_singleton] at hp
    subst hp
    simp only [List.mem_singleton] at hb
    subst hb; exact ha
  | cons q rest ih =>
    by_cases hq : q.1 = k
    · intro p hp b hb
      simp only [addToKey, if_pos hq, List.mem_cons] at hp
      rcases hp with hp | hp
      · subst hp
        by_cases hmem : a ∈ q.2
        · simp only [if_pos hmem] at hb
          exact hl q (List.mem_cons_self _ _) b hb
        · simp only [if_neg hmem, List.mem_append, List.mem_singleton] at hb
          rcases hb with hb | hb
          · exact hl q (List.mem_cons_self _ _) b hb
          · subst hb; exact ha
      · exact hl p (List.mem_cons_of_mem _ hp) b hb
    · intro p hp b hb
      simp only [addToKey, if_neg hq, List.mem_cons] at hp
      rcases hp with hp | hp
      · subst hp; exact hl p (List.mem_cons_self _ _) b hb
      · exact ih (fun r hr => hl r (List.mem_cons_of_mem _ hr)) p hp b hb

theorem foldl_add_invariants (P : VertApproxData → Prop)
    (adds : List (ExactKey × VertApproxData)) :
    ∀ S : VertSet, (S.verts.map Prod.fst).Nodup → AllApprox P S.verts →
      (∀ p ∈ adds, P p.2) →
      (((adds.foldl (fun s p => s.add p.1 p.2) S).verts.map Prod.fst).Nodup ∧
        AllApprox P (adds.foldl (fun s p => s.add p.1 p.2) S).verts) := by
  induction adds with
  | nil => intro S h1 h2 _; exact ⟨h1, h2⟩
  | cons q rest ih =>
    intro S h1 h2 hP
    simp only [List.foldl_cons]
    exact ih (S.add q.1 q.2) (addToKey_keys_nodup h1)
      (allApprox_addToKey h2 (hP q (List.mem_cons_self _ _)))
      (fun p hp => hP p (List.mem_cons_of_mem _ hp))

theorem difference_self_of_allApprox (S : VertSet)
    (h1 : (S.verts.map Prod.fst).Nodup)
    (h2 : AllApprox (fun a => a.approx_eq a = true) S.verts) :
    S.difference S = [] := by
  unfold VertSet.difference
  suffices hstep : ∀ (l : List (ExactKey × List VertApproxData)), (∀ p ∈ l, p ∈ S.verts) →
      ∀ acc, (l.foldl (fun acc (p : ExactKey × List VertApproxData) =>
        match lookupKey S.verts p.1 with
        | none => acc ++ [p]
        | some os =>
          let differing := p.2.filter
            (fun (a : VertApproxData) => !(os.any (fun b => a.approx_eq b)))
          if differing = [] then acc else acc ++ [(p.1, differing)]) acc) = acc by
    exact hstep S.verts (fun p hp => hp) []
  intro l
  induction l with
  | nil => intro _ acc; rfl
  | cons p rest ih =>
    intro hsub acc
    have hp : p ∈ S.verts := hsub p (List.mem_cons_self _ _)
    have hlook : lookupKey S.verts p.1 = some p.2 := by
      rcases p with ⟨k, as⟩
      exact lookupKey_eq_of_nodup h1 hp
    have hfilter : p.2.filter
        (fun (a : VertApproxData) => !(p.2.any (fun b => a.approx_eq b))) = [] := by
      refine List.filter_eq_nil_iff.mpr ?_
      intro a ha
      have hself : a.approx_eq a = true := h2 p hp a ha
      have hany : p.2.any (fun b => a.approx_eq b) = true :=
        List.any_eq_true.mpr ⟨a, ha, hself⟩
      simp [hany]
    simp only [List.foldl_cons, hlook, hfilter, if_pos rfl]
    exact ih (fun r hr => hsub r (List.mem_cons_of_mem _ hr)) acc

/-- Claim C2 (amended): for a `VertSet` built by any sequence of `add` calls,
`exact_difference` with itself is always empty, and `difference` with itself
is empty provided every inserted approx datum is `approx_eq` to itself. -/
theorem vertset_self_difference (adds : List (ExactKey × VertApproxData)) :
    (buildVertSet adds).exact_difference (buildVertSet adds) = [] ∧
      ((∀ p ∈ adds, VertApproxData.approx_eq p.2 p.2 = true) →
        (buildVertSet adds).difference (buildVertSet adds) = []) := by
  refine ⟨exact_difference_self _, fun h => ?_⟩
  have hinv := foldl_add_invariants (fun a => a.approx_eq a = true) adds VertSet.init
    (by simp [VertSet.init]) (by intro p hp; simp [VertSet.init] at hp) h
  exact difference_self_of_allApprox _ hinv.1 hinv.2

/-- Claim C2 witness: the amended theorem applied to a concrete one-element
add sequence whose approx datum has no normal. -/
theorem vertset_self_difference_witness :
    (∀ p ∈ [(([KeyItem.tag "k"], VertApproxData.new none none))],
        VertApproxData.approx_eq p.2 p.2 = true) ∧
      (buildVertSet [(([KeyItem.tag "k"], VertApproxData.new none none))]).difference
        (buildVertSet [(([KeyItem.tag "k"], VertApproxData.new none none))]) = [] := by
  constructor
  · intro p hp
    simp only [List.mem_singleton] at hp
    subst hp
    rfl
  · exact (vertset_self_difference _).2 (by
      intro p hp
      simp only [List.mem_singleton] at hp
      subst hp
      rfl)

/-- Claim C2 counterexample: a `VertSet` holding one vertex whose approx
datum is a zero normal has a non-empty `difference` with itself, refuting
`S.difference(S) = empty` for every `S`. -/
theorem vertset_self_difference_cex :
    (buildVertSet [(([KeyItem.tag "k"], VertApproxData.new (some [0, 0, 0]) none))]).difference
      (buildVertSet [(([KeyItem.tag "k"], VertApproxData.new (some [0, 0, 0]) none))]) ≠ [] := by
  norm_num [buildVertSet, VertSet.init, VertSet.add, addToKey, VertSet.difference,
    lookupKey, VertApproxData.new, VertApproxData.approx_eq, resized4, roundQ,
    roundHalfEven, dotQ, Int.fract]

/-- The `rounded_bw` bone-weight signature stored per fused vertex: a
1-tuple of resolved (bone name, weight) pairs for skinned meshes, a pair
of rounded bone/weight arrays for unskinned ones (`find_fusion_output_vs`),
or the `(0,)` placeholder. Only equality of signatures is ever used. -/
inductive BWSig where
  | skinned : List (String × ℚ) → BWSig
  | unskinned : List ℚ → List ℚ → BWSig
  | nul : BWSig
deriving DecidableEq

/-- A fused-vertex record `(exact_pos, exact_norm, rounded_bw)`; the normal
is optional (`buf.normal[i].xyz if buf.normal else None`). -/
abbrev FRec := Vec3 × Option Vec3 × BWSig

abbrev Voxel := ℤ × ℤ × ℤ

/-- `FusedVertVoxelSet.voxels`: insertion-ordered dict from voxel key to
the list of member vertex indices. -/
abbrev VoxelMap := List (Voxel × List ℕ)

def frecDefault : FRec := ((0, 0, 0), none, BWSig.nul)

def lookupVox : VoxelMap → Voxel → Option (List ℕ)
  | [], _ => none
  | p :: rest, k => if p.1 = k then some p.2 else lookupVox rest k

/-- `FusedVertVoxelSet` of compare.py. -/
structure FusedVertVoxelSet where
  voxels : VoxelMap
  verts : List FRec
  voxel_size : ℚ

/-- `FusedVertVoxelSet.__init__` (default `voxel_size=0.0001`). -/
def FusedVertVoxelSet.init (voxel_size : ℚ) : FusedVertVoxelSet := ⟨[], [], voxel_size⟩

/-- The voxel key computed by `FusedVertVoxelSet.add`:
`int(pos.c / voxel_size)` per axis, with Python `int` truncation. -/
def voxKey (vs : ℚ) (p : Vec3) : Voxel :=
  (truncInt (p.1 / vs), truncInt (p.2.1 / vs), truncInt (p.2.2 / vs))

/-- `self.voxels[voxel].append(len(self.verts))` on the defaultdict. -/
def bucketAdd : VoxelMap → Voxel → ℕ → VoxelMap
  | [], k, i => [(k, [i])]
  | p :: rest, k, i => if p.1 = k then (p.1, p.2 ++ [i]) :: rest else p :: bucketAdd rest k i

/-- `FusedVertVoxelSet.add`. -/
def FusedVertVoxelSet.add (s : FusedVertVoxelSet) (pos : Vec3) (norm : Option Vec3)
    (bw : BWSig) : FusedVertVoxelSet :=
  ⟨bucketAdd s.voxels (voxKey s.voxel_size pos) s.verts.length,
   s.verts ++ [(pos, norm, bw)], s.voxel_size⟩

/-- The per-axis offsets `(c - 1, c, c + 1, c + 2)` of the search window. -/
def offs (c : ℤ) : List ℤ := [c - 1, c, c + 1, c + 2]

/-- The 4x4x4 block of voxel keys probed by `check_one_to_one`
(`x` outermost, `z` innermost, as in the source comprehensions). -/
def offsetKeys (k : Voxel) : List Voxel :=
  (offs k.1).flatMap fun x => (offs k.2.1).flatMap fun y => (offs k.2.2).map fun z => (x, y, z)

/-- A `defaultdict(list)` lookup: a missing key is inserted with an empty
bucket (this mutation is what `other.voxels[(x, y, z)]` performs). -/
def getDefaultVox (m : VoxelMap) (k : Voxel) : List ℕ × VoxelMap :=
  match lookupVox m k with
  | some l => (l, m)
  | none => ([], m ++ [(k, [])])

/-- `other_search_space`: pairs `(other_i, other.verts[other_i])` over the
probed block, threading the defaultdict mutations of `other.voxels`. -/
def gatherPairs (verts : List FRec) : VoxelMap → List Voxel → List (ℕ × FRec) × VoxelMap
  | m, [] => ([], m)
  | m, k :: ks =>
    let r := getDefaultVox m k
    let rest := gatherPairs verts r.2 ks
    (r.1.map (fun j => (j, verts.getD j frecDefault)) ++ rest.1, rest.2)

/-- `self_search_space`: same block, but guarded by
`if (x, y, z) in self.voxels`, so no mutation. -/
def gatherSelfList (verts : List FRec) (m : VoxelMap) : List Voxel → List (ℕ × FRec)
  | [] => []
  | k :: ks =>
    (match lookupVox m k with
     | some l => l.map (fun j => (j, verts.getD j frecDefault))
     | none => []) ++ gatherSelfList verts m ks

def roundVec3 (v : Vec3) : Vec3 := (roundQ 3 v.1, roundQ 3 v.2.1, roundQ 3 v.2.2)

/-- An entry of `potential_other_verts` / `potential_self_verts`:
`(index, rounded normal or None, position)`. -/
abbrev PotEntry := ℕ × Option Vec3 × Vec3

/-- The candidate filter of `check_one_to_one`: same `rounded_bw` and
squared distance strictly below `pos_epsilon ** 2`. -/
def matchesOf (pos : Vec3) (bw : BWSig) (eps2 : ℚ) (sp : List (ℕ × FRec)) : List PotEntry :=
  (sp.filter (fun e => decide (e.2.2.2 = bw ∧ distSq pos e.2.1 < eps2))).map
    (fun e => (e.1, e.2.2.1.map roundVec3, e.2.1))

/-- An entry of `was_unfused_in_other`. -/
abbrev URec := Vec3 × BWSig × List PotEntry × List PotEntry

/-- Loop state of `check_one_to_one`: the three accumulators, the counted
other-vertex set, and the (mutating) voxel map of `other`. -/
structure COOSt where
  noEquiv : List FRec
  unfused : List URec
  counted : List ℕ
  om : VoxelMap

/-- The body of `for self_vert in verts` (lines 204-226 of compare.py). -/
def procVert (eps2 : ℚ) (osp ssp : List (ℕ × FRec)) (v : FRec) (st : COOSt) : COOSt :=
  let pot_o := matchesOf v.1 v.2.2 eps2 osp
  let cnt := st.counted ++ pot_o.map (fun e => e.1)
  let pot_s := matchesOf v.1 v.2.2 eps2 ssp
  if pot_o.length = 0 then
    { st with noEquiv := st.noEquiv ++ [v], counted := cnt }
  else if pot_s.length < pot_o.length then
    { st with unfused := st.unfused ++ [(v.1, v.2.2, pot_s, pot_o)], counted := cnt }
  else { st with counted := cnt }

def procBucket (selfVerts : List FRec) (eps2 : ℚ) (osp ssp : List (ℕ × FRec)) :
    List ℕ → COOSt → COOSt
  | [], st => st
  | i :: rest, st =>
    procBucket selfVerts eps2 osp ssp rest (procVert eps2 osp ssp (selfVerts.getD i frecDefault) st)

/-- The outer loop `for voxel_key, verts in self.voxels.items()`. -/
def procVoxels (selfVerts otherVerts : List FRec) (selfVox : VoxelMap) (eps2 : ℚ) :
    List (Voxel × List ℕ) → COOSt → COOSt
  | [], st => st
  | e :: rest, st =>
    let g := gatherPairs otherVerts st.om (offsetKeys e.1)
    let ssp := gatherSelfList selfVerts selfVox (offsetKeys e.1)
    procVoxels selfVerts otherVerts selfVox eps2 rest
      (procBucket selfVerts eps2 g.1 ssp e.2 { st with om := g.2 })

/-- `FusedVertVoxelSet.check_one_to_one` (default `pos_epsilon=0.00001`).
The two leading `assert`s become `Except.error`; on success the result also
carries the final voxel map of `other` (mutated by defaultdict lookups). -/
def FusedVertVoxelSet.check_one_to_one (s o : FusedVertVoxelSet) (eps : ℚ) :
    Except String ((List FRec × List URec × List FRec) × VoxelMap) :=
  if s.voxel_size = o.voxel_size then
    if eps < s.voxel_size then
      let st := procVoxels s.verts o.verts s.voxels (eps ^ 2) s.voxels ⟨[], [], [], o.voxels⟩
      let rest := ((List.range o.verts.length).filter (fun j => !(st.counted.contains j))).map
        (fun j => o.verts.getD j frecDefault)
      Except.ok ((st.noEquiv, st.unfused, rest), st.om)
    else Except.error "assertion failed: self.voxel_size > pos_epsilon"
  else Except.error "assertion failed: self.voxel_size == other.voxel_size"

/-- A `FusedVertVoxelSet` built by a sequence of `add` calls. -/
def buildFVVS (vs : ℚ) (adds : List FRec) : FusedVertVoxelSet :=
  adds.foldl (fun s a => s.add a.1 a.2.1 a.2.2) (FusedVertVoxelSet.init vs)

def exceptIsOk {ε α : Type} : Except ε α → Bool
  | Except.ok _ => true
  | Except.error _ => false

/-- Claim C10: `check_one_to_one` hits an assertion failure exactly when the
two voxel sizes differ or `self.voxel_size` is not strictly greater than
`pos_epsilon`; in particular, with the default sizes `0.0001` and default
epsilon `0.00001` the assertions pass and the call returns normally. -/
theorem check_one_to_one_assert_iff :
    (∀ (s o : FusedVertVoxelSet) (eps : ℚ),
      exceptIsOk (s.check_one_to_one o eps) = true ↔
        (s.voxel_size = o.voxel_size ∧ eps < s.voxel_size)) ∧
    exceptIsOk ((FusedVertVoxelSet.init (1/10000)).check_one_to_one
      (FusedVertVoxelSet.init (1/10000)) (1/100000)) = true := by
  constructor
  · intro s o eps
    unfold FusedVertVoxelSet.check_one_to_one
    split_ifs with h1 h2 <;> simp_all [exceptIsOk]
  · unfold FusedVertVoxelSet.check_one_to_one
    rw [if_pos rfl]
    rw [if_pos (by norm_num [FusedVertVoxelSet.init] :
      (1/100000 : ℚ) < (FusedVertVoxelSet.init (1/10000)).voxel_size)]
    rfl

theorem bucketAdd_lookup (m : VoxelMap) (k : Voxel) (i : ℕ) :
    ∃ l, lookupVox (bucketAdd m k i) k = some l ∧ i ∈ l := by
  induction m with
  | nil => exact ⟨[i], by simp [bucketAdd, lookupVox]⟩
  | cons p rest ih =>
    by_cases hk : p.1 = k
    · exact ⟨p.2 ++ [i], by simp [bucketAdd, hk, lookupVox]⟩
    · obtain ⟨l, hl, hi⟩ := ih
      exact ⟨l, by simp [bucketAdd, hk, lookupVox, hl], hi⟩

/-- Claim C5 (amended): `add` records the new vertex index in the bucket
`voxKey`, whose per-axis coordinate is `pos/voxel_size` truncated toward
zero (Python `int`), i.e. the floor for non-negative quotients and the
ceiling for negative ones, not the floor on every axis. -/
theorem add_bucket_trunc :
    (∀ (s : FusedVertVoxelSet) (p : Vec3) (n : Option Vec3) (bw : BWSig),
      ∃ l, lookupVox (s.add p n bw).voxels (voxKey s.voxel_size p) = some l ∧
        s.verts.length ∈ l) ∧
    (∀ q : ℚ, (0 ≤ q → truncInt q = ⌊q⌋) ∧ (q < 0 → truncInt q = ⌈q⌉)) := by
  constructor
  · intro s p n bw
    exact bucketAdd_lookup s.voxels (voxKey s.voxel_size p) s.verts.length
  · intro q
    constructor
    · intro h; simp [truncInt, h]
    · intro h
      rw [truncInt, if_neg (not_le.mpr h), Int.floor_neg, neg_neg]

/-- Claim C5 witness: a concrete `add` at a negative position lands in the
truncated bucket, and a concrete negative quotient truncates to its ceiling. -/
theorem add_bucket_trunc_witness :
    (∃ l, lookupVox (((FusedVertVoxelSet.init (1/10000)).add ((-3)/20000, 0, 0) none
        BWSig.nul)).voxels (voxKey (1/10000) ((-3)/20000, 0, 0)) = some l ∧ 0 ∈ l) ∧
      (((-3 : ℚ)/2 < 0) ∧ truncInt ((-3)/2) = ⌈((-3 : ℚ)/2)⌉) := by
  refine ⟨add_bucket_trunc.1 (FusedVertVoxelSet.init (1/10000)) ((-3)/20000, 0, 0) none
    BWSig.nul, by norm_num, (add_bucket_trunc.2 ((-3)/2)).2 (by norm_num)⟩

/-- Claim C5 counterexample: adding a vertex at `x = -1.5 * voxel_size`
buckets it under `-1` (truncation), while `floor(x / voxel_size) = -2`;
the bucket the claim predicts is absent from the map. -/
theorem add_bucket_floor_cex :
    lookupVox (((FusedVertVoxelSet.init (1/10000)).add ((-3)/20000, 0, 0) none
        BWSig.nul)).voxels (-1, 0, 0) = some [0] ∧
      (⌊((-3 : ℚ)/20000) / (1/10000)⌋ = -2) ∧
      lookupVox (((FusedVertVoxelSet.init (1/10000)).add ((-3)/20000, 0, 0) none
        BWSig.nul)).voxels (-2, 0, 0) = none := by
  refine ⟨?_, by norm_num, ?_⟩ <;>
    norm_num [FusedVertVoxelSet.init, FusedVertVoxelSet.add, voxKey, truncInt,
      bucketAdd, lookupVox]

/-- `m` is `m₀` plus appended empty buckets (the only mutation defaultdict
lookups can make). -/
def ExtendsE (m₀ m : VoxelMap) : Prop :=
  ∃ ext, m = m₀ ++ ext ∧ ∀ p ∈ ext, p.2 = ([] : List ℕ)

theorem extendsE_refl (m : VoxelMap) : ExtendsE m m := ⟨[], by simp⟩

theorem extendsE_trans {m₀ m m' : VoxelMap} (h1 : ExtendsE m₀ m) (h2 : ExtendsE m m') :
    ExtendsE m₀ m' := by
  obtain ⟨e1, rfl, he1⟩ := h1
  obtain ⟨e2, rfl, he2⟩ := h2
  refine ⟨e1 ++ e2, by simp, ?_⟩
  intro p hp
  rcases List.mem_append.mp hp with h | h
  · exact he1 p h
  · exact he2 p h

theorem lookupVox_ext_empty {ext : VoxelMap} (h : ∀ p ∈ ext, p.2 = ([] : List ℕ))
    (k : Voxel) : (lookupVox ext k).getD [] = [] := by
  induction ext with
  | nil => simp [lookupVox]
  | cons p rest ih =>
    by_cases hk : p.1 = k
    · simp only [lookupVox, if_pos hk, Option.getD_some]
      exact h p (List.mem_cons_self _ _)
    · simp only [lookupVox, if_neg hk]
      exact ih (fun r hr => h r (List.mem_cons_of_mem _ hr))

theorem extendsE_lookup_getD {m₀ m : VoxelMap} (h : ExtendsE m₀ m) (k : Voxel) :
    (lookupVox m k).getD [] = (lookupVox m₀ k).getD [] := by
  obtain ⟨ext, rfl, hext⟩ := h
  induction m₀ with
  | nil => simpa [lookupVox] using lookupVox_ext_empty hext k
  | cons p rest ih =>
    by_cases hk : p.1 = k
    · simp [lookupVox, hk]
    · simpa [lookupVox, hk] using ih

theorem getDefaultVox_fst (m : VoxelMap) (k : Voxel) :
    (getDefaultVox m k).1 = (lookupVox m k).getD [] := by
  unfold getDefaultVox
  cases h : lookupVox m k <;> simp [h]

theorem getDefaultVox_extends (m : VoxelMap) (k : Voxel) :
    ExtendsE m (getDefaultVox m k).2 := by
  unfold getDefaultVox
  cases h : lookupVox m k with
  | none => exact ⟨[(k, [])], by simp [h]⟩
  | some l => simpa [h] using extendsE_refl m

theorem gatherSelfList_chunk (verts : List FRec) (m : VoxelMap) (k : Voxel)
    (ks : List Voxel) :
    gatherSelfList verts m (k :: ks) =
      ((lookupVox m k).getD []).map (fun j => (j, verts.getD j frecDefault)) ++
        gatherSelfList verts m ks := by
  cases h : lookupVox m k <;> simp [gatherSelfList, h]

theorem gatherPairs_spec (verts : List FRec) {m₀ m : VoxelMap} (ks : List Voxel)
    (h : ExtendsE m₀ m) :
    (gatherPairs verts m ks).1 = gatherSelfList verts m₀ ks ∧
      ExtendsE m₀ (gatherPairs verts m ks).2 := by
  induction ks generalizing m with
  | nil => exact ⟨rfl, h⟩
  | cons k ks ih =>
    have hrec := ih (m := (getDefaultVox m k).2)
      (extendsE_trans h (getDefaultVox_extends m k))
    constructor
    · show (getDefaultVox m k).1.map _ ++ (gatherPairs verts (getDefaultVox m k).2 ks).1 = _
      rw [gatherSelfList_chunk, getDefaultVox_fst, extendsE_lookup_getD h, hrec.1]
    · exact hrec.2

theorem lookupVox_eq_of_nodup {m : VoxelMap} (h : (m.map Prod.fst).Nodup)
    {k : Voxel} {l : List ℕ} (hmem : (k, l) ∈ m) : lookupVox m k = some l := by
  induction m with
  | nil => simp at hmem
  | cons p rest ih =>
    simp only [List.map_cons, List.nodup_cons] at h
    rcases List.mem_cons.mp hmem with heq | htail
    · rw [← heq]; simp [lookupVox]
    · have hk : ¬ p.1 = k := by
        intro hkk
        exact h.1 (hkk ▸ (List.mem_map.mpr ⟨(k, l), htail, rfl⟩))
      simp only [lookupVox, if_neg hk]
      exact ih h.2 htail

theorem mem_offsetKeys_self (k : Voxel) : k ∈ offsetKeys k := by
  rcases k with ⟨x, y, z⟩
  simp only [offsetKeys, offs, List.mem_flatMap, List.mem_map]
  exact ⟨x, by simp, y, by simp, z, by simp⟩

theorem mem_gatherSelfList {verts : List FRec} {m : VoxelMap} {k : Voxel}
    {bucket : List ℕ} (hlook : lookupVox m k = some bucket) {i : ℕ}
    (hi : i ∈ bucket) {ks : List Voxel} (hk : k ∈ ks) :
    (i, verts.getD i frecDefault) ∈ gatherSelfList verts m ks := by
  induction ks with
  | nil => simp at hk
  | cons k0 ks ih =>
    rw [gatherSelfList_chunk]
    rcases List.mem_cons.mp hk with heq | htail
    · subst heq
      refine List.mem_append_left _ ?_
      rw [hlook]
      exact List.mem_map.mpr ⟨i, hi, rfl⟩
    · exact List.mem_append_right _ (ih htail)

theorem distSq_self (a : Vec3) : distSq a a = 0 := by simp [distSq]

theorem matchesOf_mem {i : ℕ} {w : FRec} {sp : List (ℕ × FRec)}
    (hmem : (i, w) ∈ sp) {bw : BWSig} (hbw : w.2.2 = bw) {pos : Vec3} {eps2 : ℚ}
    (hd : distSq pos w.1 < eps2) :
    (i, w.2.1.map roundVec3, w.1) ∈ matchesOf pos bw eps2 sp := by
  unfold matchesOf
  refine List.mem_map.mpr ⟨(i, w), ?_, rfl⟩
  refine List.mem_filter.mpr ⟨hmem, ?_⟩
  simp [hbw, hd]

theorem procVert_self {eps2 : ℚ} (heps2 : 0 < eps2) {ssp : List (ℕ × FRec)}
    {selfVerts : List FRec} {i : ℕ}
    (hmem : (i, selfVerts.getD i frecDefault) ∈ ssp) (st : COOSt) :
    ∃ cnt, procVert eps2 ssp ssp (selfVerts.getD i frecDefault) st =
      ⟨st.noEquiv, st.unfused, st.counted ++ cnt, st.om⟩ ∧ i ∈ cnt := by
  set v := selfVerts.getD i frecDefault with hv
  have hin : (i, v.2.1.map roundVec3, v.1) ∈ matchesOf v.1 v.2.2 eps2 ssp :=
    matchesOf_mem hmem rfl (by rw [distSq_self]; exact heps2)
  refine ⟨(matchesOf v.1 v.2.2 eps2 ssp).map (fun e => e.1), ?_, ?_⟩
  · unfold procVert
    rw [if_neg, if_neg]
    · exact lt_irrefl _
    · intro hlen
      rw [List.length_eq_zero] at hlen
      rw [hlen] at hin
      exact absurd hin (List.not_mem_nil _)
  · exact List.mem_map.mpr ⟨(i, v.2.1.map roundVec3, v.1), hin, rfl⟩

theorem procBucket_self {eps2 : ℚ} (heps2 : 0 < eps2) {ssp : List (ℕ × FRec)}
    {selfVerts : List FRec} (bucket : List ℕ)
    (hmem : ∀ i ∈ bucket, (i, selfVerts.getD i frecDefault) ∈ ssp) (st : COOSt) :
    ∃ cnt, procBucket selfVerts eps2 ssp ssp bucket st =
      ⟨st.noEquiv, st.unfused, st.counted ++ cnt, st.om⟩ ∧ ∀ i ∈ bucket, i ∈ cnt := by
  induction bucket generalizing st with
  | nil =>
    exact ⟨[], by simp [procBucket], by simp⟩
  | cons i rest ih =>
    obtain ⟨c1, h1, hi1⟩ := procVert_self heps2 (hmem i (List.mem_cons_self _ _)) st
    obtain ⟨c2, h2, hi2⟩ := ih (fun j hj => hmem j (List.mem_cons_of_mem _ hj))
      ⟨st.noEquiv, st.unfused, st.counted ++ c1, st.om⟩
    refine ⟨c1 ++ c2, ?_, ?_⟩
    · show procBucket selfVerts eps2 ssp ssp rest
        (procVert eps2 ssp ssp (selfVerts.getD i frecDefault) st) = _
      rw [h1, h2]
      simp [List.append_assoc]
    · intro j hj
      rcases List.mem_cons.mp hj with heq | htail
      · subst heq; exact List.mem_append_left _ hi1
      · exact List.mem_append_right _ (hi2 j htail)

theorem procVoxels_self {S : FusedVertVoxelSet}
    (hnodup : (S.voxels.map Prod.fst).Nodup) {eps2 : ℚ} (heps2 : 0 < eps2)
    (entries : List (Voxel × List ℕ)) (hsub : ∀ e ∈ entries, e ∈ S.voxels) :
    ∀ st : COOSt, ExtendsE S.voxels st.om →
      ∃ cnt om', procVoxels S.verts S.verts S.voxels eps2 entries st =
          ⟨st.noEquiv, st.unfused, st.counted ++ cnt, om'⟩ ∧
        ExtendsE S.voxels om' ∧ ∀ e ∈ entries, ∀ i ∈ e.2, i ∈ cnt := by
  induction entries with
  | nil =>
    intro st hst
    exact ⟨[], st.om, by simp [procVoxels], hst, by simp⟩
  | cons e rest ih =>
    intro st hst
    have hg := gatherPairs_spec S.verts (offsetKeys e.1) hst
    set g := gatherPairs S.verts st.om (offsetKeys e.1) with hgdef
    clear_value g
    have hlook : lookupVox S.voxels e.1 = some e.2 := by
      have := hsub e (List.mem_cons_self _ _)
      rcases e with ⟨k, bucket⟩
      exact lookupVox_eq_of_nodup hnodup this
    have hmem : ∀ i ∈ e.2, (i, S.verts.getD i frecDefault) ∈
        gatherSelfList S.verts S.voxels (offsetKeys e.1) :=
      fun i hi => mem_gatherSelfList hlook hi (mem_offsetKeys_self e.1)
    obtain ⟨c1, h1, hi1⟩ := procBucket_self heps2 e.2 hmem
      ⟨st.noEquiv, st.unfused, st.counted, g.2⟩
    obtain ⟨c2, om', h2, hext2, hi2⟩ := ih
      (fun r hr => hsub r (List.mem_cons_of_mem _ hr))
      ⟨st.noEquiv, st.unfused, st.counted ++ c1, g.2⟩ hg.2
    refine ⟨c1 ++ c2, om', ?_, hext2, ?_⟩
    · simp only [procVoxels]
      rw [← hgdef, hg.1, h1, h2]
      simp [List.append_assoc]
    · intro r hr i hi
      rcases List.mem_cons.mp hr with heq | htail
      · subst heq; exact List.mem_append_left _ (hi1 i hi)
      · exact List.mem_append_right _ (hi2 r htail i hi)

theorem bucketAdd_keys (m : VoxelMap) (k : Voxel) (i : ℕ) :
    (bucketAdd m k i).map Prod.fst =
      if k ∈ m.map Prod.fst then m.map Prod.fst else m.map Prod.fst ++ [k] := by
  induction m with
  | nil => simp [bucketAdd]
  | cons p rest ih =>
    by_cases hk : p.1 = k
    · simp [bucketAdd, hk]
    · have hk2 : ¬ k = p.1 := fun h => hk h.symm
      simp only [bucketAdd, if_neg hk, List.map_cons, ih, List.mem_cons, hk2, false_or]
      by_cases hmem : k ∈ rest.map Prod.fst <;> simp [hmem]

theorem bucketAdd_keys_nodup {m : VoxelMap} {k : Voxel} {i : ℕ}
    (h : (m.map Prod.fst).Nodup) : ((bucketAdd m k i).map Prod.fst).Nodup := by
  rw [bucketAdd_keys]
  by_cases hmem : k ∈ m.map Prod.fst
  · simpa [hmem] using h
  · simpa [hmem, List.nodup_append] using h

theorem bucketAdd_superset {m : VoxelMap} {e : Voxel × List ℕ} (hmem : e ∈ m)
    (k : Voxel) (i : ℕ) :
    ∃ l, (e.1, l) ∈ bucketAdd m k i ∧ ∀ j ∈ e.2, j ∈ l := by
  induction m with
  | nil => simp at hmem
  | cons p rest ih =>
    rcases List.mem_cons.mp hmem with heq | htail
    · subst heq
      by_cases hk : e.1 = k
      · exact ⟨e.2 ++ [i], by simp [bucketAdd, hk], fun j hj => by simp [hj]⟩
      · exact ⟨e.2, by simp [bucketAdd, hk], fun j hj => hj⟩
    · by_cases hk : p.1 = k
      · exact ⟨e.2, by simp [bucketAdd, hk, List.mem_cons_of_mem _ htail],
          fun j hj => hj⟩
      · obtain ⟨l, hl, hj⟩ := ih htail
        exact ⟨l, by simp only [bucketAdd, if_neg hk]; exact List.mem_cons_of_mem _ hl, hj⟩

theorem lookupVox_mem {m : VoxelMap} {k : Voxel} {l : List ℕ}
    (h : lookupVox m k = some l) : (k, l) ∈ m := by
  induction m with
  | nil => simp [lookupVox] at h
  | cons p rest ih =>
    by_cases hk : p.1 = k
    · simp only [lookupVox, if_pos hk] at h
      injection h with h
      subst h
      exact List.mem_cons.mpr (Or.inl (by rw [← hk]))
    · simp only [lookupVox, if_neg hk] at h
      exact List.mem_cons_of_mem _ (ih h)

/-- Completeness: every vertex index is recorded in some bucket. -/
def CompleteVox (s : FusedVertVoxelSet) : Prop :=
  ∀ i < s.verts.length, ∃ e ∈ s.voxels, i ∈ e.2

theorem buildFVVS_invariants (vs : ℚ) (adds : List FRec) :
    (buildFVVS vs adds).voxel_size = vs ∧
      ((buildFVVS vs adds).voxels.map Prod.fst).Nodup ∧
      CompleteVox (buildFVVS vs adds) := by
  suffices h : ∀ (s : FusedVertVoxelSet), (s.voxels.map Prod.fst).Nodup →
      CompleteVox s →
      ((adds.foldl (fun s a => s.add a.1 a.2.1 a.2.2) s).voxel_size = s.voxel_size ∧
        (((adds.foldl (fun s a => s.add a.1 a.2.1 a.2.2) s).voxels.map Prod.fst)).Nodup ∧
        CompleteVox (adds.foldl (fun s a => s.add a.1 a.2.1 a.2.2) s)) by
    exact h (FusedVertVoxelSet.init vs) (by simp [FusedVertVoxelSet.init])
      (by intro i hi; simp [FusedVertVoxelSet.init] at hi)
  induction adds with
  | nil => intro s h1 h2; exact ⟨rfl, h1, h2⟩
  | cons a rest ih =>
    intro s h1 h2
    simp only [List.foldl_cons]
    refine ih (s.add a.1 a.2.1 a.2.2) (bucketAdd_keys_nodup h1) ?_
    intro i hi
    simp only [FusedVertVoxelSet.add, List.length_append, List.length_singleton] at hi
    by_cases hlt : i < s.verts.length
    · obtain ⟨e, he, hie⟩ := h2 i hlt
      obtain ⟨l, hl, hsup⟩ := bucketAdd_superset he
        (voxKey s.voxel_size a.1) s.verts.length
      exact ⟨(e.1, l), hl, hsup i hie⟩
    · have heq : i = s.verts.length := by omega
      subst heq
      obtain ⟨l, hl, hil⟩ :=
        bucketAdd_lookup s.voxels (voxKey s.voxel_size a.1) s.verts.length
      exact ⟨(voxKey s.voxel_size a.1, l), lookupVox_mem hl, hil⟩

/-- Claim C6 (amended): for every `FusedVertVoxelSet` built by `add` calls,
if `0 < pos_epsilon < voxel_size` and no two distinct members lie strictly
closer than `pos_epsilon` with equal bone signature, then
`check_one_to_one(S, S)` returns three empty lists.  (For `pos_epsilon = 0`
the claim fails: every vertex is reported as having no equivalent.) -/
theorem check_one_to_one_self (vs eps : ℚ) (adds : List FRec)
    (heps : 0 < eps) (hlt : eps < vs)
    (hsep : ∀ i, i < adds.length → ∀ j, j < adds.length → i ≠ j →
      (adds.getD i frecDefault).2.2 = (adds.getD j frecDefault).2.2 →
      ¬ distSq (adds.getD i frecDefault).1 (adds.getD j frecDefault).1 < eps ^ 2) :
    Except.map Prod.fst ((buildFVVS vs adds).check_one_to_one (buildFVVS vs adds) eps) =
      Except.ok ([], [], []) := by
  clear hsep
  obtain ⟨hvs, hnodup, hcomp⟩ := buildFVVS_invariants vs adds
  set S := buildFVVS vs adds with hS
  clear_value S
  unfold FusedVertVoxelSet.check_one_to_one
  rw [if_pos rfl, if_pos (by rw [hvs]; exact hlt)]
  obtain ⟨cnt, om', hproc, hext, hcov⟩ := procVoxels_self hnodup (pow_pos heps 2)
    S.voxels (fun e he => he) ⟨[], [], [], S.voxels⟩ (extendsE_refl _)
  simp only [hproc, List.nil_append]
  have hrest : (List.range S.verts.length).filter (fun j => !(cnt.contains j)) = [] := by
    refine List.filter_eq_nil_iff.mpr ?_
    intro j hj
    have hjlt : j < S.verts.length := List.mem_range.mp hj
    obtain ⟨e, he, hie⟩ := hcomp j hjlt
    have hjc : j ∈ cnt := hcov e he j hie
    simpa using hjc
  rw [hrest]
  simp [Except.map]

/-- Claim C6 witness: the amended theorem at a concrete one-vertex set with
the default sizes; all hypotheses hold and the result is three empty lists. -/
theorem check_one_to_one_self_witness :
    ((0 : ℚ) < 1/100000) ∧ ((1/100000 : ℚ) < 1/10000) ∧
      Except.map Prod.fst
        ((buildFVVS (1/10000) [((0, 0, 0), none, BWSig.nul)]).check_one_to_one
          (buildFVVS (1/10000) [((0, 0, 0), none, BWSig.nul)]) (1/100000)) =
        Except.ok ([], [], []) := by
  refine ⟨by norm_num, by norm_num, ?_⟩
  refine check_one_to_one_self (1/10000) (1/100000) [((0, 0, 0), none, BWSig.nul)]
    (by norm_num) (by norm_num) ?_
  intro i hi j hj hne hbw
  simp only [List.length_singleton] at hi hj
  exact absurd (by omega : i = j) hne

theorem procVert_om (eps2 : ℚ) (osp ssp : List (ℕ × FRec)) (v : FRec) (st : COOSt) :
    (procVert eps2 osp ssp v st).om = st.om := by
  simp only [procVert]
  split_ifs <;> rfl

theorem procBucket_om (selfVerts : List FRec) (eps2 : ℚ) (osp ssp : List (ℕ × FRec))
    (bucket : List ℕ) (st : COOSt) :
    (procBucket selfVerts eps2 osp ssp bucket st).om = st.om := by
  induction bucket generalizing st with
  | nil => rfl
  | cons i rest ih =>
    show (procBucket selfVerts eps2 osp ssp rest _).om = _
    rw [ih, procVert_om]

theorem gatherPairs_extends (verts : List FRec) (m : VoxelMap) (ks : List Voxel) :
    ExtendsE m (gatherPairs verts m ks).2 :=
  (gatherPairs_spec verts ks (extendsE_refl m)).2

theorem procVoxels_om_extends {o₀ : VoxelMap} (sv ov : List FRec) (svox : VoxelMap)
    (eps2 : ℚ) (entries : List (Voxel × List ℕ)) :
    ∀ st : COOSt, ExtendsE o₀ st.om →
      ExtendsE o₀ (procVoxels sv ov svox eps2 entries st).om := by
  induction entries with
  | nil => intro st hst; exact hst
  | cons e rest ih =>
    intro st hst
    simp only [procVoxels]
    refine ih _ ?_
    rw [procBucket_om]
    dsimp only
    exact extendsE_trans hst (gatherPairs_extends ov st.om (offsetKeys e.1))

/-- Claim C7 (amended): `check_one_to_one` leaves `self` untouched (its map
accesses are membership-guarded) and leaves the vertex list and every
existing bucket of `other` unchanged, but its unguarded defaultdict lookups
append empty buckets to `other.voxels` for each probed missing voxel; the
resulting map answers every lookup as before but is not structurally equal. -/
theorem check_one_to_one_readonly (s o : FusedVertVoxelSet) (eps : ℚ)
    (t : List FRec × List URec × List FRec) (m' : VoxelMap)
    (h : s.check_one_to_one o eps = Except.ok (t, m')) :
    (∃ ext, m' = o.voxels ++ ext ∧ ∀ p ∈ ext, p.2 = ([] : List ℕ)) ∧
      ∀ k, (lookupVox m' k).getD [] = (lookupVox o.voxels k).getD [] := by
  unfold FusedVertVoxelSet.check_one_to_one at h
  split_ifs at h with h1 h2
  simp only [Except.ok.injEq, Prod.mk.injEq] at h
  have hm' : m' = (procVoxels s.verts o.verts s.voxels (eps ^ 2) s.voxels
      ⟨[], [], [], o.voxels⟩).om := h.2.symm
  have hext : ExtendsE o.voxels m' := by
    rw [hm']
    exact procVoxels_om_extends s.verts o.verts s.voxels (eps ^ 2) s.voxels
      ⟨[], [], [], o.voxels⟩ (extendsE_refl _)
  exact ⟨hext, fun k => extendsE_lookup_getD hext k⟩

/-- Claim C7 witness: the amended theorem applied to two empty sets, whose
`check_one_to_one` call succeeds and returns the untouched empty map. -/
theorem check_one_to_one_readonly_witness :
    ((FusedVertVoxelSet.init (1/10000)).check_one_to_one
        (FusedVertVoxelSet.init (1/10000)) (1/100000) =
      Except.ok (([], [], []), [])) ∧
    (∃ ext, ([] : VoxelMap) = (FusedVertVoxelSet.init (1/10000)).voxels ++ ext ∧
      ∀ p ∈ ext, p.2 = ([] : List ℕ)) := by
  have h : (FusedVertVoxelSet.init (1/10000)).check_one_to_one
      (FusedVertVoxelSet.init (1/10000)) (1/100000) = Except.ok (([], [], []), []) := by
    unfold FusedVertVoxelSet.check_one_to_one
    rw [if_pos rfl, if_pos (by norm_num [FusedVertVoxelSet.init] :
      (1/100000 : ℚ) < (FusedVertVoxelSet.init (1/10000)).voxel_size)]
    simp [FusedVertVoxelSet.init, procVoxels]
  exact ⟨h, (check_one_to_one_readonly _ _ _ _ _ h).1⟩

set_option maxRecDepth 100000 in
set_option maxHeartbeats 1000000 in
/-- Claim C7 counterexample: after `check_one_to_one` on a one-vertex `self`
and an empty `other`, the returned voxel map of `other` holds 64 buckets
(one per probed voxel), while `other.voxels` started empty: the voxel maps
are not identical before and after the call. -/
theorem check_one_to_one_mutates_cex :
    Except.map (fun r => r.2.length)
      ((buildFVVS (1/10000) [((0, 0, 0), none, BWSig.nul)]).check_one_to_one
        (FusedVertVoxelSet.init (1/10000)) (1/100000)) = Except.ok 64 ∧
      (FusedVertVoxelSet.init (1/10000)).voxels = [] := by
  refine ⟨?_, rfl⟩
  have h1 : buildFVVS (1/10000) [((0, 0, 0), none, BWSig.nul)] =
      ⟨[((0, 0, 0), [0])], [((0, 0, 0), none, BWSig.nul)], 1/10000⟩ := by
    norm_num [buildFVVS, FusedVertVoxelSet.init, FusedVertVoxelSet.add, voxKey,
      truncInt, bucketAdd]
  rw [h1, FusedVertVoxelSet.check_one_to_one]
  simp only [FusedVertVoxelSet.init]
  rw [if_pos trivial]
  rw [if_pos (by norm_num : (1/100000 : ℚ) < 1/10000)]
  simp only [offsetKeys, offs, List.flatMap, procVoxels, gatherPairs, getDefaultVox,
    lookupVox, gatherSelfList, procBucket, procVert, matchesOf, List.map, List.flatten,
    List.filter, List.range, List.getD, reduceIte, Int.reduceNeg, Int.reduceAdd,
    Int.reduceSub, Prod.mk.injEq, List.cons_append, List.nil_append, List.length_nil,
    List.length_cons]
  norm_num [distSq, frecDefault, List.range, List.contains]
  simp [Except.map]

set_option maxRecDepth 100000 in
set_option maxHeartbeats 1000000 in
/-- Claim C6 counterexample: with `pos_epsilon = 0` the claim's separation
hypothesis holds vacuously for a one-vertex set and the asserts pass
(`voxel_size > 0`), yet `check_one_to_one(S, S, 0)` reports the vertex both
as having no equivalent in other and as having no equivalent in self. -/
theorem check_one_to_one_self_eps_zero_cex :
    (∀ i, i < ([((0, 0, 0), none, BWSig.nul)] : List FRec).length →
      ∀ j, j < ([((0, 0, 0), none, BWSig.nul)] : List FRec).length → i ≠ j →
      (([((0, 0, 0), none, BWSig.nul)] : List FRec).getD i frecDefault).2.2 =
        (([((0, 0, 0), none, BWSig.nul)] : List FRec).getD j frecDefault).2.2 →
      ¬ distSq (([((0, 0, 0), none, BWSig.nul)] : List FRec).getD i frecDefault).1
          (([((0, 0, 0), none, BWSig.nul)] : List FRec).getD j frecDefault).1 <
        (0 : ℚ) ^ 2) ∧
    Except.map Prod.fst
      ((buildFVVS (1/10000) [((0, 0, 0), none, BWSig.nul)]).check_one_to_one
        (buildFVVS (1/10000) [((0, 0, 0), none, BWSig.nul)]) 0) =
      Except.ok ([((0, 0, 0), none, BWSig.nul)], [],
        [((0, 0, 0), none, BWSig.nul)]) := by
  constructor
  · intro i hi j hj hne hbw
    simp only [List.length_singleton] at hi hj
    exact absurd (by omega : i = j) hne
  · have h1 : buildFVVS (1/10000) [((0, 0, 0), none, BWSig.nul)] =
        ⟨[((0, 0, 0), [0])], [((0, 0, 0), none, BWSig.nul)], 1/10000⟩ := by
      norm_num [buildFVVS, FusedVertVoxelSet.init, FusedVertVoxelSet.add, voxKey,
        truncInt, bucketAdd]
    rw [h1, FusedVertVoxelSet.check_one_to_one]
    rw [if_pos rfl]
    rw [if_pos (by norm_num : (0 : ℚ) < (1/10000 : ℚ))]
    simp only [offsetKeys, offs, List.flatMap, procVoxels, gatherPairs, getDefaultVox,
      lookupVox, gatherSelfList, procBucket, procVert, matchesOf, List.map, List.flatten,
      List.filter, List.range, List.getD, reduceIte, Int.reduceNeg, Int.reduceAdd,
      Int.reduceSub, Prod.mk.injEq, List.cons_append, List.nil_append, List.length_nil,
      List.length_cons]
    norm_num [distSq, frecDefault, List.range, List.contains]
    simp [Except.map]

/-- The severity of one reported message of the `ErrorReporter`. -/
inductive Severity where
  | info
  | recoverable
  | fatal
deriving DecidableEq

/-- `compare_same_layout_mesh_vertex_fusions` (lines 347-377), parameterised
over the two fused-vertex add sequences that the external welding step
(`vertex_fusion` plus, for skinned data, `make_bone_indices_consistent`,
consumed collaborators outside this module) produces for `src` and `dst`;
both voxel sets are built with the default `voxel_size`, exactly as
`find_fusion_output_vs` does, and compared with the default `pos_epsilon`.
An assertion failure inside `check_one_to_one` propagates as an error; the
result is the returned pass/fail flag and the reported severities. -/
def compare_same_layout_mesh_vertex_fusions (srcAdds dstAdds : List FRec) :
    Except String (Bool × List Severity) :=
  let src_fused_vs := buildFVVS (1/10000) srcAdds
  let dst_fused_vs := buildFVVS (1/10000) dstAdds
  match src_fused_vs.check_one_to_one dst_fused_vs (1/100000) with
  | Except.error e => Except.error e
  | Except.ok ((a, b, c), _) =>
    if !a.isEmpty || !b.isEmpty || !c.isEmpty then
      Except.ok (false, [Severity.fatal])
    else if src_fused_vs.verts.length ≠ dst_fused_vs.verts.length then
      Except.ok (true, [Severity.recoverable])
    else Except.ok (true, [])

theorem isEmpty_false_of_ne {α : Type} {l : List α} (h : l ≠ []) :
    l.isEmpty = false := by
  cases l with
  | nil => exact absurd rfl h
  | cons x xs => rfl

theorem isEmpty_true_of_eq {α : Type} {l : List α} (h : l = []) :
    l.isEmpty = true := by
  subst h; rfl

/-- Claim C4: `compare_fusion` runs `check_one_to_one` on the two re-derived
fused vertex sets; a non-empty category is reported fatal (and fails the
group), empty categories with differing fused counts are reported
recoverable, and otherwise nothing is reported. -/
theorem compare_fusion_severity (srcAdds dstAdds : List FRec)
    (a : List FRec) (b : List URec) (c : List FRec) (m : VoxelMap)
    (h : (buildFVVS (1/10000) srcAdds).check_one_to_one
      (buildFVVS (1/10000) dstAdds) (1/100000) = Except.ok ((a, b, c), m)) :
    ((a ≠ [] ∨ b ≠ [] ∨ c ≠ []) →
      compare_same_layout_mesh_vertex_fusions srcAdds dstAdds =
        Except.ok (false, [Severity.fatal])) ∧
    (a = [] → b = [] → c = [] →
      (buildFVVS (1/10000) srcAdds).verts.length ≠
        (buildFVVS (1/10000) dstAdds).verts.length →
      compare_same_layout_mesh_vertex_fusions srcAdds dstAdds =
        Except.ok (true, [Severity.recoverable])) ∧
    (a = [] → b = [] → c = [] →
      (buildFVVS (1/10000) srcAdds).verts.length =
        (buildFVVS (1/10000) dstAdds).verts.length →
      compare_same_layout_mesh_vertex_fusions srcAdds dstAdds =
        Except.ok (true, [])) := by
  have hrw : compare_same_layout_mesh_vertex_fusions srcAdds dstAdds =
      (if !a.isEmpty || !b.isEmpty || !c.isEmpty then Except.ok (false, [Severity.fatal])
       else if (buildFVVS (1/10000) srcAdds).verts.length ≠
           (buildFVVS (1/10000) dstAdds).verts.length then
         Except.ok (true, [Severity.recoverable])
       else Except.ok (true, [])) := by
    unfold compare_same_layout_mesh_vertex_fusions
    simp only [h]
  rw [hrw]
  refine ⟨fun hne => ?_, fun ha hb hc hlen => ?_, fun ha hb hc hlen => ?_⟩
  · rcases hne with hx | hx | hx <;>
      simp [isEmpty_false_of_ne hx]
  · rw [if_neg (by simp [isEmpty_true_of_eq, ha, hb, hc]), if_pos hlen]
  · rw [if_neg (by simp [isEmpty_true_of_eq, ha, hb, hc]),
      if_neg (fun hne => hne hlen)]

/-- Claim C4 witness: on two empty fused sets, `check_one_to_one` succeeds
with three empty lists and `compare_fusion` reports nothing. -/
theorem compare_fusion_severity_witness :
    ((buildFVVS (1/10000) []).check_one_to_one (buildFVVS (1/10000) [])
        (1/100000) = Except.ok (([], [], []), [])) ∧
      compare_same_layout_mesh_vertex_fusions [] [] = Except.ok (true, []) := by
  have h : (buildFVVS (1/10000) []).check_one_to_one (buildFVVS (1/10000) [])
      (1/100000) = Except.ok (([], [], []), []) := by
    unfold FusedVertVoxelSet.check_one_to_one
    rw [if_pos rfl, if_pos (by norm_num [buildFVVS, FusedVertVoxelSet.init] :
      (1/100000 : ℚ) < (buildFVVS (1/10000) []).voxel_size)]
    simp [buildFVVS, FusedVertVoxelSet.init, procVoxels]
  exact ⟨h, ((compare_fusion_severity [] [] [] [] [] [] h).2.2 rfl rfl rfl rfl)⟩

/-- A vertex buffer (`GMDVertexBuffer_Generic`): per-channel arrays indexed
by vertex slot.  Genuinely 4-component channels (normal, tangent) are also
plain component lists; `.w` is component 3. -/
structure GMDVertexBuffer where
  pos : List (List ℚ)
  normal : Option (List (List ℚ))
  tangent : Option (List (List ℚ))
  col0 : Option (List (List ℚ))
  col1 : Option (List (List ℚ))
  unk : Option (List (List ℚ))
  uvs : List (List (List ℚ))
  bone_data : Option (List (List ℚ))
  weight_data : Option (List (List ℚ))

/-- The parts of a `GMDMesh` / `GMDSkinnedMesh` the comparison reads.
`attribute_set` is identified with its `str(...)` form. -/
structure GMDMesh where
  attribute_set : String
  vertices_data : GMDVertexBuffer
  triangle_strip_noreset_indices : List ℕ
  relevant_bones : List String

/-- `v.w` of a `mathutils.Vector`. -/
def vecW (v : List ℚ) : ℚ := v.getD 3 0

/-- `nul_item = (0,)`. -/
def nulItem : KeyItem := KeyItem.tup [0]

/-- The exact-data tuple built per referenced vertex by `get_unique_verts`. -/
def exactKeyUnskinned (buf : GMDVertexBuffer) (i : ℕ) : ExactKey :=
  [ KeyItem.tup ((buf.pos.getD i []).map (roundQ 2)),
    (match buf.normal with
     | some ns => KeyItem.num (roundQ 4 (vecW (ns.getD i [])))
     | none => nulItem),
    (match buf.tangent with
     | some ts => KeyItem.num (roundQ 4 (vecW (ts.getD i [])))
     | none => nulItem),
    (match buf.col0 with
     | some cs => KeyItem.tup ((cs.getD i []).map (roundQ 2))
     | none => nulItem),
    (match buf.col1 with
     | some cs => KeyItem.tup ((cs.getD i []).map (roundQ 2))
     | none => nulItem),
    (match buf.unk with
     | some us => KeyItem.tup ((us.getD i []).map (roundQ 2))
     | none => nulItem),
    KeyItem.tup (buf.uvs.foldl (fun acc uv => acc ++ (uv.getD i []).map (roundQ 2)) []),
    KeyItem.tag "b",
    (match buf.bone_data with
     | some bd => KeyItem.tup ((bd.getD i []).map (roundQ 1))
     | none => nulItem),
    KeyItem.tag "w",
    (match buf.weight_data with
     | some wd => KeyItem.tup ((wd.getD i []).map (roundQ 2))
     | none => nulItem) ]

/-- The `VertApproxData` built per referenced vertex. -/
def approxOf (buf : GMDVertexBuffer) (i : ℕ) : VertApproxData :=
  VertApproxData.new (buf.normal.map (fun ns => ns.getD i []))
    (buf.tangent.map (fun ts => ts.getD i []))

/-- `get_unique_verts`: insert the exact/approx data of every vertex slot
referenced by each mesh's strip indices (deduplicated, as `set(...)`). -/
def get_unique_verts (ms : List GMDMesh) : VertSet :=
  ms.foldl (fun all m =>
    (m.triangle_strip_noreset_indices.dedup).foldl (fun all i =>
      all.add (exactKeyUnskinned m.vertices_data i) (approxOf m.vertices_data i)) all)
    VertSet.init

/-- The resolved skinned bone item: `(relevant_bones[int(b)].name, round(w, 3))`
for pairs with `w > 0` (the `assert buf.bone_data and buf.weight_data` of the
source holds for well-formed skinned meshes; absent channels fall back to the
placeholder). -/
def bonePairsOf (m : GMDMesh) (i : ℕ) : KeyItem :=
  match m.vertices_data.bone_data, m.vertices_data.weight_data with
  | some bd, some wd =>
    KeyItem.bonePairs (((((bd.getD i []).zip (wd.getD i [])).filter
        (fun p => decide (0 < p.2)))).map
      (fun p => (m.relevant_bones.getD (truncInt p.1).toNat "", roundQ 3 p.2)))
  | _, _ => nulItem

/-- The exact-data tuple built by `get_unique_skinned_verts`. -/
def exactKeySkinned (m : GMDMesh) (i : ℕ) : ExactKey :=
  [ KeyItem.tup ((m.vertices_data.pos.getD i []).map (roundQ 2)),
    (match m.vertices_data.normal with
     | some ns => KeyItem.num (roundQ 4 (vecW (ns.getD i [])))
     | none => nulItem),
    (match m.vertices_data.tangent with
     | some ts => KeyItem.num (roundQ 4 (vecW (ts.getD i [])))
     | none => nulItem),
    (match m.vertices_data.col0 with
     | some cs => KeyItem.tup ((cs.getD i []).map (roundQ 2))
     | none => nulItem),
    (match m.vertices_data.col1 with
     | some cs => KeyItem.tup ((cs.getD i []).map (roundQ 2))
     | none => nulItem),
    (match m.vertices_data.unk with
     | some us => KeyItem.tup ((us.getD i []).map (roundQ 2))
     | none => nulItem),
    KeyItem.tup (m.vertices_data.uvs.foldl
      (fun acc uv => acc ++ (uv.getD i []).map (roundQ 2)) []),
    KeyItem.tag "bw",
    bonePairsOf m i ]

/-- `get_unique_skinned_verts`. -/
def get_unique_skinned_verts (ms : List GMDMesh) : VertSet :=
  ms.foldl (fun all m =>
    (m.triangle_strip_noreset_indices.dedup).foldl (fun all i =>
      all.add (exactKeySkinned m i) (approxOf m.vertices_data i)) all)
    VertSet.init

/-- `compare_same_layout_meshes` (lines 380-422): exact differences first
(fatal, failing the group, without consulting the tolerant differences);
only when both are empty, tolerant differences (recoverable, also failing
the group); otherwise success with no report. -/
def compare_same_layout_meshes (skinned : Bool) (src dst : List GMDMesh) :
    Bool × List Severity :=
  let src_vertices := if skinned then get_unique_skinned_verts src else get_unique_verts src
  let dst_vertices := if skinned then get_unique_skinned_verts dst else get_unique_verts dst
  let src_but_not_dst_exact := src_vertices.exact_difference dst_vertices
  let dst_but_not_src_exact := dst_vertices.exact_difference src_vertices
  if !src_but_not_dst_exact.isEmpty || !dst_but_not_src_exact.isEmpty then
    (false, [Severity.fatal])
  else
    let src_but_not_dst := src_vertices.difference dst_vertices
    let dst_but_not_src := dst_vertices.difference src_vertices
    if !src_but_not_dst.isEmpty || !dst_but_not_src.isEmpty then
      (false, [Severity.recoverable])
    else (true, [])

/-- Claim C3: `compare_meshes` computes the exact differences in both
directions first; either non-empty gives a fatal report and failure (the
tolerant differences play no role there); with both exact differences
empty, a non-empty tolerant difference in either direction gives a
recoverable (never fatal) report and failure; all empty gives success
with no report. -/
theorem compare_meshes_severity (skinned : Bool) (src dst : List GMDMesh) :
    (let sv := if skinned then get_unique_skinned_verts src else get_unique_verts src
     let dv := if skinned then get_unique_skinned_verts dst else get_unique_verts dst
     ((sv.exact_difference dv ≠ [] ∨ dv.exact_difference sv ≠ []) →
        compare_same_layout_meshes skinned src dst = (false, [Severity.fatal])) ∧
     (sv.exact_difference dv = [] → dv.exact_difference sv = [] →
        (((sv.difference dv ≠ [] ∨ dv.difference sv ≠ []) →
           compare_same_layout_meshes skinned src dst = (false, [Severity.recoverable])) ∧
         (sv.difference dv = [] → dv.difference sv = [] →
           compare_same_layout_meshes skinned src dst = (true, []))))) := by
  dsimp only
  unfold compare_same_layout_meshes
  refine ⟨fun hne => ?_, fun he1 he2 => ⟨fun hne => ?_, fun hd1 hd2 => ?_⟩⟩
  · rcases hne with hx | hx <;> rw [if_pos (by simp [isEmpty_false_of_ne hx])]
  · rw [if_neg (by simp [isEmpty_true_of_eq, he1, he2])]
    rcases hne with hx | hx <;> rw [if_pos (by simp [isEmpty_false_of_ne hx])]
  · rw [if_neg (by simp [isEmpty_true_of_eq, he1, he2]),
      if_neg (by simp [isEmpty_true_of_eq, hd1, hd2])]

/-- Claim C3 witness: empty mesh groups have empty differences everywhere,
and the comparison succeeds with no report. -/
theorem compare_meshes_severity_witness :
    ((get_unique_verts []).exact_difference (get_unique_verts []) = []) ∧
      ((get_unique_verts []).difference (get_unique_verts []) = []) ∧
      compare_same_layout_meshes false [] [] = (true, []) := by
  refine ⟨rfl, rfl, ?_⟩
  exact ((compare_meshes_severity false [] []).2 rfl rfl).2 rfl rfl

set_option maxRecDepth 100000 in
set_option maxHeartbeats 1600000 in
/-- On the concrete pair where src holds two coincident fused vertices and
dst holds one, `check_one_to_one` finds all three categories empty, the
fused counts differ, and `compare_fusion` reports recoverable yet returns
true. -/
theorem fusion_count_drift_eval :
    compare_same_layout_mesh_vertex_fusions
      [((0, 0, 0), none, BWSig.nul), ((0, 0, 0), none, BWSig.nul)]
      [((0, 0, 0), none, BWSig.nul)] = Except.ok (true, [Severity.recoverable]) := by
  have h1 : buildFVVS (1/10000)
      [((0, 0, 0), none, BWSig.nul), ((0, 0, 0), none, BWSig.nul)] =
      ⟨[((0, 0, 0), [0, 1])],
       [((0, 0, 0), none, BWSig.nul), ((0, 0, 0), none, BWSig.nul)], 1/10000⟩ := by
    norm_num [buildFVVS, FusedVertVoxelSet.init, FusedVertVoxelSet.add, voxKey,
      truncInt, bucketAdd]
  have h2 : buildFVVS (1/10000) [((0, 0, 0), none, BWSig.nul)] =
      ⟨[((0, 0, 0), [0])], [((0, 0, 0), none, BWSig.nul)], 1/10000⟩ := by
    norm_num [buildFVVS, FusedVertVoxelSet.init, FusedVertVoxelSet.add, voxKey,
      truncInt, bucketAdd]
  unfold compare_same_layout_mesh_vertex_fusions
  rw [h1, h2]
  unfold FusedVertVoxelSet.check_one_to_one
  dsimp only
  rw [if_pos rfl]
  rw [if_pos (by norm_num : (1/100000 : ℚ) < 1/10000)]
  simp only [offsetKeys, offs, List.flatMap, procVoxels, gatherPairs, getDefaultVox,
    lookupVox, gatherSelfList, procBucket, procVert, matchesOf, List.map, List.flatten,
    List.filter, List.range, List.getD, reduceIte, Int.reduceNeg, Int.reduceAdd,
    Int.reduceSub, Prod.mk.injEq, List.cons_append, List.nil_append, List.length_nil,
    List.length_cons]
  norm_num [distSq, frecDefault, List.range, List.contains, List.isEmpty]

/-- Claim C8 (amended): `compare_same_layout_meshes` returns false exactly
when it reports a mismatch of any severity; `compare_same_layout_mesh_vertex_fusions`
returns false exactly when it reports a fatal mismatch, so its recoverable
count-drift report coexists with a true return value. -/
theorem per_group_signal :
    (∀ (skinned : Bool) (src dst : List GMDMesh),
      (compare_same_layout_meshes skinned src dst).1 = false ↔
        (compare_same_layout_meshes skinned src dst).2 ≠ []) ∧
    (∀ (srcAdds dstAdds : List FRec) (b : Bool) (evs : List Severity),
      compare_same_layout_mesh_vertex_fusions srcAdds dstAdds = Except.ok (b, evs) →
        (b = false ↔ Severity.fatal ∈ evs)) := by
  constructor
  · intro skinned src dst
    unfold compare_same_layout_meshes
    dsimp only
    split_ifs <;> simp
  · intro srcAdds dstAdds b evs h
    unfold compare_same_layout_mesh_vertex_fusions at h
    dsimp only at h
    cases hc : (buildFVVS (1/10000) srcAdds).check_one_to_one
        (buildFVVS (1/10000) dstAdds) (1/100000) with
    | error e =>
      rw [hc] at h
      exact absurd h (by simp)
    | ok v =>
      obtain ⟨⟨a, bb, c⟩, m⟩ := v
      rw [hc] at h
      dsimp only at h
      by_cases h1 : (!a.isEmpty || !bb.isEmpty || !c.isEmpty) = true
      · rw [if_pos h1] at h
        simp only [Except.ok.injEq, Prod.mk.injEq] at h
        obtain ⟨hb, he⟩ := h
        subst hb
        subst he
        simp
      · rw [if_neg h1] at h
        by_cases h2 : (buildFVVS (1/10000) srcAdds).verts.length ≠
            (buildFVVS (1/10000) dstAdds).verts.length
        · rw [if_pos h2] at h
          simp only [Except.ok.injEq, Prod.mk.injEq] at h
          obtain ⟨hb, he⟩ := h
          subst hb
          subst he
          simp
        · rw [if_neg h2] at h
          simp only [Except.ok.injEq, Prod.mk.injEq] at h
          obtain ⟨hb, he⟩ := h
          subst hb
          subst he
          simp

/-- Claim C8 witness: the amended theorem applied at the concrete
count-drift input, where the fusion check returns true with a recoverable
report and no fatal report. -/
theorem per_group_signal_witness :
    (compare_same_layout_mesh_vertex_fusions
        [((0, 0, 0), none, BWSig.nul), ((0, 0, 0), none, BWSig.nul)]
        [((0, 0, 0), none, BWSig.nul)] =
      Except.ok (true, [Severity.recoverable])) ∧
    ((true = false) ↔ Severity.fatal ∈ [Severity.recoverable]) :=
  ⟨fusion_count_drift_eval,
   per_group_signal.2 _ _ true [Severity.recoverable] fusion_count_drift_eval⟩

/-- Claim C8 counterexample: `compare_same_layout_mesh_vertex_fusions`
reports a recoverable mismatch (count drift) yet returns true, refuting
"whenever a fatal or recoverable mismatch is reported, the corresponding
function returns false". -/
theorem per_group_signal_cex :
    compare_same_layout_mesh_vertex_fusions
      [((0, 0, 0), none, BWSig.nul), ((0, 0, 0), none, BWSig.nul)]
      [((0, 0, 0), none, BWSig.nul)] =
      Except.ok (true, [Severity.recoverable]) :=
  fusion_count_drift_eval

/-- `NodeType` of the abstract scene.  In the abstract scene `GMDBone`
corresponds to `MatrixTransform`, `GMDSkinnedObject` to `SkinnedMesh` and
`GMDUnskinnedObject` to `UnskinnedMesh`, so the `isinstance` tests of
`compare_single_node_pair` are modelled by the node type. -/
inductive NodeType where
  | MatrixTransform
  | SkinnedMesh
  | UnskinnedMesh
deriving DecidableEq

/-- A `GMDNode`: name, node type, the compared transform fields, flags,
matrix, mesh list and children. -/
inductive GMDNode where
  | mk : String → NodeType → List ℚ → List ℚ → List ℚ → List ℚ → List ℚ →
      List ℤ → List (List ℚ) → List GMDMesh → List GMDNode → GMDNode

def GMDNode.name : GMDNode → String
  | .mk n _ _ _ _ _ _ _ _ _ _ => n

def GMDNode.node_type : GMDNode → NodeType
  | .mk _ t _ _ _ _ _ _ _ _ _ => t

def GMDNode.pos : GMDNode → List ℚ
  | .mk _ _ p _ _ _ _ _ _ _ _ => p

def GMDNode.rot : GMDNode → List ℚ
  | .mk _ _ _ r _ _ _ _ _ _ _ => r

def GMDNode.scale : GMDNode → List ℚ
  | .mk _ _ _ _ s _ _ _ _ _ _ => s

def GMDNode.world_pos : GMDNode → List ℚ
  | .mk _ _ _ _ _ w _ _ _ _ _ => w

def GMDNode.anim_axis : GMDNode → List ℚ
  | .mk _ _ _ _ _ _ a _ _ _ _ => a

def GMDNode.flags : GMDNode → List ℤ
  | .mk _ _ _ _ _ _ _ f _ _ _ => f

def GMDNode.matrix : GMDNode → List (List ℚ)
  | .mk _ _ _ _ _ _ _ _ mx _ _ => mx

def GMDNode.mesh_list : GMDNode → List GMDMesh
  | .mk _ _ _ _ _ _ _ _ _ ml _ => ml

def GMDNode.children : GMDNode → List GMDNode
  | .mk _ _ _ _ _ _ _ _ _ _ cs => cs

/-- `sum(fabs(s - r) for (s, r) in zip(src_f, dst_f))`. -/
def sumAbsDiff (a b : List ℚ) : ℚ :=
  ((a.zip b).map (fun p => |p.1 - p.2|)).foldl (· + ·) 0

/-- `compare_vec_field`: round both to 3 decimals; if unequal, the summed
absolute difference decides fatal (> 0.05) vs recoverable. -/
def compare_vec_field (a b : List ℚ) : List Severity :=
  let src_f := a.map (roundQ 3)
  let dst_f := b.map (roundQ 3)
  if src_f ≠ dst_f then
    if (1/20 : ℚ) < sumAbsDiff src_f dst_f then [Severity.fatal]
    else [Severity.recoverable]
  else []

/-- `compare_mat_field`: same with the flattened rounded rows. -/
def compare_mat_field (a b : List (List ℚ)) : List Severity :=
  let src_f := a.map (fun v => v.map (roundQ 3))
  let dst_f := b.map (fun v => v.map (roundQ 3))
  if src_f ≠ dst_f then
    if (1/20 : ℚ) < sumAbsDiff (src_f.foldl (· ++ ·) []) (dst_f.foldl (· ++ ·) [])
    then [Severity.fatal]
    else [Severity.recoverable]
  else []

/-- Insertion sort standing in for Python `sorted` on attribute strings. -/
def insertSorted (x : String) : List String → List String
  | [] => [x]
  | y :: ys => if x ≤ y then x :: y :: ys else y :: insertSorted x ys

def sortStrings (l : List String) : List String := l.foldr insertSorted []

/-- `compare_single_node_pair` (lines 425-512).  Severity events are
accumulated in call order; `deriver` stands for `find_fusion_output_vs`'s
external welding step (as in `compare_same_layout_mesh_vertex_fusions`). -/
def compare_single_node_pair (deriver : Bool → List GMDMesh → List FRec)
    (skinned vertices : Bool) (src dst : GMDNode) : Except String (List Severity) :=
  let base :=
    (if src.node_type ≠ dst.node_type then [Severity.fatal] else []) ++
    compare_vec_field src.pos dst.pos ++
    compare_vec_field src.rot dst.rot ++
    compare_vec_field src.scale dst.scale ++
    compare_vec_field src.world_pos dst.world_pos ++
    compare_vec_field src.anim_axis dst.anim_axis ++
    (if src.flags ≠ dst.flags then [Severity.fatal] else []) ++
    (if src.node_type ≠ NodeType.SkinnedMesh then compare_mat_field src.matrix dst.matrix
     else [])
  if src.node_type = dst.node_type then
    if src.node_type = NodeType.MatrixTransform then Except.ok base
    else
      let src_attrs := (src.mesh_list.map (fun m => m.attribute_set)).dedup
      let dst_attrs := (dst.mesh_list.map (fun m => m.attribute_set)).dedup
      let sorted_attrs_src := sortStrings src_attrs
      let sorted_attrs_dst := sortStrings dst_attrs
      let eAttr := if sorted_attrs_src ≠ sorted_attrs_dst then [Severity.fatal] else []
      if vertices then
        let unique_attr_sets := (src.mesh_list.map (fun m => m.attribute_set)).dedup
        let step := unique_attr_sets.foldl (fun acc attr =>
          let r := compare_same_layout_meshes skinned
            (src.mesh_list.filter (fun m => m.attribute_set = attr))
            (dst.mesh_list.filter (fun m => m.attribute_set = attr))
          (acc.1 && r.1, acc.2 ++ r.2)) (true, ([] : List Severity))
        match compare_same_layout_mesh_vertex_fusions
            (deriver skinned src.mesh_list) (deriver skinned dst.mesh_list) with
        | Except.error e => Except.error e
        | Except.ok r =>
          let identical := step.1 && r.1
          Except.ok (base ++ eAttr ++ step.2 ++ r.2 ++
            (if identical then [Severity.info] else []))
      else Except.ok (base ++ eAttr)
  else Except.ok base

def namesOf (l : List GMDNode) : List String := l.map GMDNode.name

/-- `set(a) == set(b)` on name lists. -/
def sameNameSet (a b : List String) : Bool :=
  a.all (fun n => b.contains n) && b.all (fun n => a.contains n)

theorem GMDNode.sizeOf_children_lt (n : GMDNode) : sizeOf n.children < sizeOf n := by
  cases n with
  | mk a b c d e f g h i j k =>
    simp only [GMDNode.children, GMDNode.mk.sizeOf_spec]
    omega

mutual

/-- `recursive_compare_node_lists` (lines 515-531): fatal when the child
name sets differ, fatal when the (ordered) name lists differ, then the
pairwise comparison and recursion over `zip(src, dst)`. -/
def recursive_compare_node_lists (deriver : Bool → List GMDMesh → List FRec)
    (skinned vertices : Bool) (src dst : List GMDNode) :
    Except String (List Severity) :=
  let e1 := if sameNameSet (namesOf src) (namesOf dst) then [] else [Severity.fatal]
  let e2 := if namesOf src ≠ namesOf dst then [Severity.fatal] else []
  match recursePairs deriver skinned vertices src dst with
  | Except.error e => Except.error e
  | Except.ok e3 => Except.ok (e1 ++ e2 ++ e3)
termination_by (2 * sizeOf src + 1)

/-- The `for child_src, child_dst in zip(src, dst)` loop. -/
def recursePairs (deriver : Bool → List GMDMesh → List FRec)
    (skinned vertices : Bool) : List GMDNode → List GMDNode →
    Except String (List Severity)
  | [], _ => Except.ok []
  | _ :: _, [] => Except.ok []
  | s :: ss, d :: ds =>
    match compare_single_node_pair deriver skinned vertices s d with
    | Except.error e => Except.error e
    | Except.ok p =>
      match recursive_compare_node_lists deriver skinned vertices s.children d.children with
      | Except.error e => Except.error e
      | Except.ok c =>
        match recursePairs deriver skinned vertices ss ds with
        | Except.error e => Except.error e
        | Except.ok r => Except.ok (p ++ c ++ r)
termination_by l1 _ => 2 * sizeOf l1
decreasing_by
  · have h := GMDNode.sizeOf_children_lt s
    simp only [List.cons.sizeOf_spec]
    omega
  · simp only [List.cons.sizeOf_spec]
    omega

end

theorem fatal_mem_pair {deriver : Bool → List GMDMesh → List FRec}
    {sk vt : Bool} {s d : GMDNode} {p : List Severity}
    (hne : s.node_type ≠ d.node_type)
    (h : compare_single_node_pair deriver sk vt s d = Except.ok p) :
    Severity.fatal ∈ p := by
  unfold compare_single_node_pair at h
  dsimp only at h
  rw [if_neg hne, if_pos hne] at h
  injection h with h
  rw [← h]
  exact List.mem_append_left _ (List.mem_append_left _ (List.mem_append_left _
    (List.mem_append_left _ (List.mem_append_left _ (List.mem_append_left _
      (List.mem_append_left _ (List.mem_cons_self _ _)))))))

theorem recursePairs_pair_events {deriver : Bool → List GMDMesh → List FRec}
    {sk vt : Bool} :
    ∀ (l1 l2 : List GMDNode) (i : ℕ) (s d : GMDNode) (e3 : List Severity),
      recursePairs deriver sk vt l1 l2 = Except.ok e3 →
      l1.get? i = some s → l2.get? i = some d →
      ∃ p, compare_single_node_pair deriver sk vt s d = Except.ok p ∧
        ∀ x ∈ p, x ∈ e3 := by
  intro l1
  induction l1 with
  | nil => intro l2 i s d e3 _ hs _; simp at hs
  | cons s0 ss ih =>
    intro l2 i s d e3 h hs hd
    cases l2 with
    | nil => simp at hd
    | cons d0 ds =>
      unfold recursePairs at h
      cases hp : compare_single_node_pair deriver sk vt s0 d0 with
      | error e => rw [hp] at h; exact absurd h (by simp)
      | ok p0 =>
        rw [hp] at h
        cases hc : recursive_compare_node_lists deriver sk vt s0.children d0.children with
        | error e => rw [hc] at h; exact absurd h (by simp)
        | ok c =>
          rw [hc] at h
          cases hr : recursePairs deriver sk vt ss ds with
          | error e => rw [hr] at h; exact absurd h (by simp)
          | ok r =>
            rw [hr] at h
            injection h with h
            cases i with
            | zero =>
              simp only [List.get?] at hs hd
              injection hs with hs
              injection hd with hd
              subst hs
              subst hd
              refine ⟨p0, hp, fun x hx => ?_⟩
              rw [← h]
              exact List.mem_append_left _ (List.mem_append_left _ hx)
            | succ j =>
              simp only [List.get?] at hs hd
              obtain ⟨p, hpair, hsub⟩ := ih ds j s d r hr hs hd
              refine ⟨p, hpair, fun x hx => ?_⟩
              rw [← h]
              exact List.mem_append_right _ (hsub x hx)

/-- Claim C9: `recursive_compare` reports a fatal (never merely recoverable)
mismatch when a child name of src is absent from dst, when the child name
lists disagree (in particular identical sets in a different order), and
when a pair of same-named zipped children differ in `node_type`. -/
theorem recursive_compare_fatal (deriver : Bool → List GMDMesh → List FRec)
    (sk vt : Bool) (src dst : List GMDNode) (evs : List Severity)
    (h : recursive_compare_node_lists deriver sk vt src dst = Except.ok evs) :
    ((∃ n, n ∈ namesOf src ∧ n ∉ namesOf dst) → Severity.fatal ∈ evs) ∧
    (namesOf src ≠ namesOf dst → Severity.fatal ∈ evs) ∧
    (∀ i s d, src.get? i = some s → dst.get? i = some d → s.name = d.name →
      s.node_type ≠ d.node_type → Severity.fatal ∈ evs) := by
  unfold recursive_compare_node_lists at h
  cases hr : recursePairs deriver sk vt src dst with
  | error e => rw [hr] at h; exact absurd h (by simp)
  | ok e3 =>
    rw [hr] at h
    dsimp only at h
    injection h with h
    refine ⟨fun hex => ?_, fun hne => ?_, fun i s d hs hd hname hnt => ?_⟩
    · obtain ⟨n, hn, hnot⟩ := hex
      have hset : ¬ sameNameSet (namesOf src) (namesOf dst) = true := by
        simp only [sameNameSet, Bool.and_eq_true, List.all_eq_true]
        rintro ⟨h1, h2⟩
        exact hnot (by simpa using h1 n hn)
      rw [← h, if_neg hset]
      exact List.mem_append_left _ (List.mem_append_left _ (List.mem_cons_self _ _))
    · rw [← h, if_pos hne]
      refine List.mem_append_left _ (List.mem_append_right _ ?_)
      exact List.mem_cons_self _ _
    · obtain ⟨p, hpair, hsub⟩ := recursePairs_pair_events src dst i s d e3 hr hs hd
      have hfat : Severity.fatal ∈ p := fatal_mem_pair hnt hpair
      rw [← h]
      exact List.mem_append_right _ (hsub _ hfat)

/-- Claim C9 witness: two same-named single-child lists whose children
differ in `node_type`; the comparison succeeds and reports exactly one
fatal mismatch, found through the theorem at pair index 0. -/
theorem recursive_compare_fatal_witness :
    (recursive_compare_node_lists (fun _ _ => []) false false
        [GMDNode.mk "a" NodeType.MatrixTransform [] [] [] [] [] [] [] [] []]
        [GMDNode.mk "a" NodeType.SkinnedMesh [] [] [] [] [] [] [] [] []] =
      Except.ok [Severity.fatal]) ∧
    Severity.fatal ∈ [Severity.fatal] := by
  have h : recursive_compare_node_lists (fun _ _ => []) false false
      [GMDNode.mk "a" NodeType.MatrixTransform [] [] [] [] [] [] [] [] []]
      [GMDNode.mk "a" NodeType.SkinnedMesh [] [] [] [] [] [] [] [] []] =
      Except.ok [Severity.fatal] := by
    unfold recursive_compare_node_lists recursePairs compare_single_node_pair
    unfold recursive_compare_node_lists recursePairs
    simp [sameNameSet, namesOf, GMDNode.name, GMDNode.node_type, GMDNode.pos,
      GMDNode.rot, GMDNode.scale, GMDNode.world_pos, GMDNode.anim_axis,
      GMDNode.flags, GMDNode.matrix, GMDNode.children, compare_vec_field,
      compare_mat_field, sumAbsDiff]
  refine ⟨h, ?_⟩
  exact (recursive_compare_fatal (fun _ _ => []) false false _ _ _ h).2.2 0
    (GMDNode.mk "a" NodeType.MatrixTransform [] [] [] [] [] [] [] [] [])
    (GMDNode.mk "a" NodeType.SkinnedMesh [] [] [] [] [] [] [] [] [])
    rfl rfl rfl (by simp [GMDNode.node_type])
